import Mathlib

/-!
Verification of the nearfs-upload content-addressed block pipeline.

The development shallowly embeds the JavaScript source of `src/index.js`
(`isAlreadyUploaded`, `splitOnBatches`, `uploadBlocks`, `uploadFiles`,
`isExpectedNearError`, and the `executeUpload` transaction wrapper) as
executable Lean definitions, and proves or refutes the specified
properties against those definitions.

Byte sequences are `List Nat` (each entry a byte value).  The external
`js-sha256` and `fast-ipfs` dependencies (SHA-256, CID packing, CID
display string, DAG-PB node encoding) are not part of this repository's
sources; they are modelled from the specification, with SHA-256
implemented in full (FIPS 180-4) so that all hashing is genuine.
-/

set_option maxRecDepth 100000

namespace NearfsUpload

/-- A byte string: a list of byte values. -/
abbrev Bytes := List Nat

/-! ### SHA-256 (the `js-sha256` dependency, implemented from FIPS 180-4)

Modelled from the spec: "hashing is just SHA-256 over raw bytes (or over
the encoded directory node)".  The round constants are derived, as in the
standard, from the fractional parts of the cube roots (respectively
square roots) of the first 64 (respectively 8) primes. -/

/-- 2^32, the word modulus for SHA-256 arithmetic. -/
def w32 : Nat := 4294967296

/-- Fuel-driven integer `k`-th root by binary search (exact floor),
structurally recursive so that it evaluates inside the kernel. -/
def rootGo (k n : Nat) : Nat → Nat → Nat → Nat
  | lo, _, 0 => lo
  | lo, hi, fuel + 1 =>
    if hi ≤ lo + 1 then lo
    else
      let mid := (lo + hi) / 2
      if mid ^ k ≤ n then rootGo k n mid hi fuel else rootGo k n lo mid fuel

/-- Integer square root (floor). -/
def isqrt (n : Nat) : Nat := rootGo 2 n 0 (n + 1) 256

/-- Integer cube root (floor). -/
def cbrt (n : Nat) : Nat := rootGo 3 n 0 (n + 1) 256

/-- The first 64 primes, sources of the SHA-256 round constants. -/
def primes64 : List Nat :=
  [2, 3, 5, 7, 11, 13, 17, 19, 23, 29, 31, 37, 41, 43, 47, 53,
   59, 61, 67, 71, 73, 79, 83, 89, 97, 101, 103, 107, 109, 113, 127, 131,
   137, 139, 149, 151, 157, 163, 167, 173, 179, 181, 191, 193, 197, 199, 211, 223,
   227, 229, 233, 239, 241, 251, 257, 263, 269, 271, 277, 281, 283, 293, 307, 311]

/-- SHA-256 round constants: fractional cube-root words of the first 64 primes. -/
def sha256K : List Nat := primes64.map (fun p => cbrt (p * 2 ^ 96) % w32)

/-- SHA-256 initial hash state: fractional square-root words of the first 8 primes. -/
def sha256H0 : List Nat := (primes64.take 8).map (fun p => isqrt (p * 2 ^ 64) % w32)

/-- Right rotation of a 32-bit word. -/
def rotr (n x : Nat) : Nat := (x >>> n ||| x <<< (32 - n)) % w32

/-- Bitwise complement of a 32-bit word. -/
def bnot32 (x : Nat) : Nat := x ^^^ (w32 - 1)

/-- Message padding: append `0x80`, zero bytes, then the 64-bit big-endian
bit length, reaching a multiple of 64 bytes. -/
def padMessage (msg : Bytes) : Bytes :=
  let L := msg.length
  let bitLen := L * 8
  let zeros := (119 - L % 64) % 64
  msg ++ [128] ++ List.replicate zeros 0 ++
    [bitLen / 2 ^ 56 % 256, bitLen / 2 ^ 48 % 256, bitLen / 2 ^ 40 % 256,
     bitLen / 2 ^ 32 % 256, bitLen / 2 ^ 24 % 256, bitLen / 2 ^ 16 % 256,
     bitLen / 2 ^ 8 % 256, bitLen % 256]

/-- Group bytes four at a time into big-endian 32-bit words. -/
def bytesToWords : Bytes → List Nat
  | b0 :: b1 :: b2 :: b3 :: rest =>
    (b0 * 16777216 + b1 * 65536 + b2 * 256 + b3) :: bytesToWords rest
  | _ => []

/-- Split a list into chunks of `k` elements (fuel-driven, structurally
recursive so that it evaluates inside the kernel). -/
def chunksOfGo (k : Nat) : Nat → List α → List (List α)
  | 0, _ => []
  | _, [] => []
  | fuel + 1, l => l.take k :: chunksOfGo k fuel (l.drop k)

/-- Split a list into chunks of `k` elements. -/
def chunksOf (k : Nat) (l : List α) : List (List α) := chunksOfGo k l.length l

/-- Small sigma-zero word function of the SHA-256 message schedule. -/
def ssig0 (x : Nat) : Nat := rotr 7 x ^^^ rotr 18 x ^^^ x >>> 3

/-- Small sigma-one word function of the SHA-256 message schedule. -/
def ssig1 (x : Nat) : Nat := rotr 17 x ^^^ rotr 19 x ^^^ x >>> 10

/-- One extension step of the message schedule: append the next word. -/
def extendStep (w : List Nat) : List Nat :=
  let n := w.length
  w ++ [(ssig1 (w.getD (n - 2) 0) + w.getD (n - 7) 0 +
         ssig0 (w.getD (n - 15) 0) + w.getD (n - 16) 0) % w32]

/-- Iterate a function `n` times. -/
def applyN (f : α → α) : Nat → α → α
  | 0, a => a
  | n + 1, a => applyN f n (f a)

/-- The 64-word message schedule of one 16-word block. -/
def schedule (w16 : List Nat) : List Nat := applyN extendStep 48 w16

/-- One SHA-256 compression round on the eight-word working state. -/
def compressRound (st : List Nat) (kw : Nat × Nat) : List Nat :=
  let a := st.getD 0 0
  let b := st.getD 1 0
  let c := st.getD 2 0
  let d := st.getD 3 0
  let e := st.getD 4 0
  let f := st.getD 5 0
  let g := st.getD 6 0
  let h := st.getD 7 0
  let S1 := rotr 6 e ^^^ rotr 11 e ^^^ rotr 25 e
  let ch := (e &&& f) ^^^ (bnot32 e &&& g)
  let t1 := (h + S1 + ch + kw.1 + kw.2) % w32
  let S0 := rotr 2 a ^^^ rotr 13 a ^^^ rotr 22 a
  let maj := (a &&& b) ^^^ (a &&& c) ^^^ (b &&& c)
  let t2 := (S0 + maj) % w32
  [(t1 + t2) % w32, a, b, c, (d + t1) % w32, e, f, g]

/-- Process one 16-word block: compress and add into the hash state. -/
def processBlock (hs : List Nat) (block : List Nat) : List Nat :=
  let st := (List.zip sha256K (schedule block)).foldl compressRound hs
  (List.zip hs st).map (fun p => (p.1 + p.2) % w32)

/-- Big-endian bytes of one 32-bit word. -/
def wordToBytes (w : Nat) : Bytes :=
  [w / 16777216 % 256, w / 65536 % 256, w / 256 % 256, w % 256]

/-- SHA-256 digest (32 bytes) of a byte string. -/
def sha256 (msg : Bytes) : Bytes :=
  let blocks := chunksOf 16 (bytesToWords (padMessage msg))
  ((blocks.foldl processBlock sha256H0).map wordToBytes).flatten

/-! ### CID codec (the `fast-ipfs` `packCID` / `cidToString` dependency)

Modelled from the spec: a CID is `{version, contentType from the
enumeration RAW or DIRECTORY, 32-byte digest}`, and `cidToString` is the
canonical textual form used for gateway URLs (CIDv1 multibase base32). -/

/-- Content-type tag of a CID: raw leaf bytes or a DAG-PB directory node. -/
inductive Codec where
  | raw
  | dagPb
deriving DecidableEq

/-- A content identifier: version, content-type codec, and hash digest. -/
structure CID where
  version : Nat
  codec : Codec
  hash : Bytes
deriving DecidableEq

/-- The source's `packCID({hash, version, codec})` from `fast-ipfs`. -/
def packCID (hash : Bytes) (version : Nat) (codec : Codec) : CID :=
  ⟨version, codec, hash⟩

/-- Multicodec byte of a content-type tag (`0x55` raw, `0x70` dag-pb). -/
def Codec.toByte : Codec → Nat
  | .raw => 85
  | .dagPb => 112

/-- Binary form of a CIDv1: version byte, codec byte, then the SHA2-256
multihash header `0x12 0x20` and the digest. -/
def cidBytes (c : CID) : Bytes := c.version :: c.codec.toByte :: 18 :: 32 :: c.hash

/-- Most-significant-bit-first bits of one byte. -/
def byteBits (b : Nat) : List Nat :=
  [b / 128 % 2, b / 64 % 2, b / 32 % 2, b / 16 % 2, b / 8 % 2, b / 4 % 2, b / 2 % 2, b % 2]

/-- Value of a 5-bit group (zero-padded on the right, per base32). -/
def bitsVal (bits : List Nat) : Nat :=
  (bits ++ List.replicate 5 0).take 5 |>.foldl (fun a b => a * 2 + b) 0

/-- The RFC 4648 lowercase base32 alphabet. -/
def base32Alphabet : List Char := "abcdefghijklmnopqrstuvwxyz234567".data

/-- Unpadded lowercase base32 encoding of a byte string. -/
def base32 (bs : Bytes) : List Char :=
  (chunksOf 5 ((bs.map byteBits).flatten)).map
    (fun g => base32Alphabet.getD (bitsVal g) 'a')

/-- The source's `cidToString(cid)`: multibase (`b` prefix) base32 form of
the CID bytes, used in gateway URLs and as the returned root CID string. -/
def cidToString (c : CID) : String := String.mk ('b' :: base32 (cidBytes c))

/-! ### DAG-PB node encoder (the `fast-ipfs` `writePBNode` dependency)

Modelled from the spec: "serialize an ordered list of named links (and
file bytes) into a canonical binary node", each link carrying
`{name, cid, size}` (the size is absent on directory links), "plus a
small fixed directory marker payload".  The encoding below is the
dag-pb protobuf wire format: each link is a length-delimited field 2
holding Hash (field 1, the CID bytes), Name (field 2) and optional
Tsize (field 3), followed by the Data field 1. -/

/-- A link passed to the node encoder: name, child CID, optional size. -/
structure PBLink where
  name : String
  cid : CID
  size : Option Nat
deriving DecidableEq

/-- Fuel-driven LEB128 varint emitter. -/
def varintGo : Nat → Nat → Bytes
  | _, 0 => []
  | n, fuel + 1 => if n < 128 then [n] else (n % 128 + 128) :: varintGo (n / 128) fuel

/-- Protobuf varint encoding of a natural number. -/
def varint (n : Nat) : Bytes := varintGo n 12

/-- Bytes of a string (code points; names in this pipeline are ASCII). -/
def strBytes (s : String) : Bytes := s.data.map Char.toNat

/-- A length-delimited protobuf field with the given tag byte. -/
def lenField (tag : Nat) (payload : Bytes) : Bytes :=
  tag :: varint payload.length ++ payload

/-- Wire encoding of one link message (Hash, Name, optional Tsize). -/
def encodeLink (l : PBLink) : Bytes :=
  lenField 10 (cidBytes l.cid) ++ lenField 18 (strBytes l.name) ++
    (match l.size with
     | some s => 24 :: varint s
     | none => [])

/-- The source's `writePBNode({links, data})`: link fields in order, then
the data field. -/
def writePBNode (links : List PBLink) (data : Bytes) : Bytes :=
  (links.map (fun l => lenField 18 (encodeLink l))).flatten ++ lenField 10 data

/-! ### Tree builder (`uploadFiles`, `src/index.js` lines 84-138)

The JavaScript builds a mutable tree of `{name, links}` directory
objects and `{name, cid, size}` file entries; here the tree is the
inductive type `Entry` and the mutation is replaced by rebuilding.
Walking into a found entry that is a file entry crashes the JavaScript
(a `TypeError` on `undefined.find`), modelled as `none`. -/

/-- A directory-tree entry: a file leaf (with its CID and size) or a
directory with an ordered list of child entries. -/
inductive Entry where
  | file (name : String) (cid : CID) (size : Nat) : Entry
  | dir (name : String) (links : List Entry) : Entry

/-- The name of an entry. -/
def Entry.name : Entry → String
  | .file n _ _ => n
  | .dir n _ => n

/-- Whether an entry is a directory. -/
def Entry.isDir : Entry → Bool
  | .file _ _ _ => false
  | .dir _ _ => true

/-- Split a character list at every occurrence of the separator
(JavaScript `name.split('/')` on the underlying characters). -/
def splitCharsGo (sep : Char) : List Char → List Char → List (List Char)
  | [], cur => [cur.reverse]
  | c :: cs, cur =>
    if c = sep then cur.reverse :: splitCharsGo sep cs []
    else splitCharsGo sep cs (c :: cur)

/-- JavaScript `name.split('/')`: the slash-delimited segments of a path. -/
def jsSplitSlash (s : String) : List String :=
  (splitCharsGo '/' s.data []).map (fun cs => String.mk cs)

/-- The source's `dir.links.find(({name}) => name === dirName)`, as the
index of the first entry with the given name. -/
def findEntryIdx (links : List Entry) (n : String) : Option Nat :=
  links.findIdx? (fun e => e.name = n)

/-- One file insertion of the `uploadFiles` loop: walk (or create)
directory entries along the path segments, then append the file entry to
the final directory's links.  Returns `none` where the JavaScript would
crash (the walk meets a file entry). -/
def insertPath (segs : List String) (fname : String) (c : CID) (size : Nat)
    (links : List Entry) : Option (List Entry) :=
  match segs with
  | [] => some (links ++ [Entry.file fname c size])
  | d :: rest =>
    match findEntryIdx links d with
    | none =>
      match insertPath rest fname c size [] with
      | none => none
      | some sub => some (links ++ [Entry.dir d sub])
    | some i =>
      match links.getD i (Entry.dir d []) with
      | Entry.dir n sub =>
        match insertPath rest fname c size sub with
        | none => none
        | some sub2 => some (links.set i (Entry.dir n sub2))
      | Entry.file _ _ _ => none

/-- An input file: slash-delimited relative path and content bytes. -/
structure InputFile where
  name : String
  content : Bytes
deriving DecidableEq

/-- CID of a file block: `packCID({hash: sha256(content), version: 1,
codec: CODEC_RAW})`. -/
def fileCid (content : Bytes) : CID := packCID (sha256 content) 1 Codec.raw

/-- Insert one input file into the root links (path split on `/`, all
segments but the last are directories). -/
def addFile (links : List Entry) (f : InputFile) : Option (List Entry) :=
  let path := jsSplitSlash f.name
  insertPath path.dropLast (path.getLastD "") (fileCid f.content) f.content.length links

/-- The links of the root directory after inserting every input file in
order (`none` when some insertion crashes the JavaScript). -/
def buildRootLinks (files : List InputFile) : Option (List Entry) :=
  files.foldlM addFile []

/-- A block queued for upload: payload bytes and their CID. -/
structure Block where
  data : Bytes
  cid : CID
deriving DecidableEq

/-- The file blocks queued during the insertion loop, in input order. -/
def fileBlocks (files : List InputFile) : List Block :=
  files.map (fun f => ⟨f.content, fileCid f.content⟩)

/-- The source's `addBlocksForDir` over a list of entries, fuel-driven so
that it evaluates inside the kernel: returns the directory-node blocks in
post-order together with the links (now all carrying CIDs) for the parent
node.  The fuel always exceeds the number of entries in the tree at every
use below. -/
def resolveLinks : Nat → List Entry → List Block × List PBLink
  | 0, _ => ([], [])
  | _, [] => ([], [])
  | fuel + 1, Entry.file n c s :: rest =>
    let (bs, ls) := resolveLinks fuel rest
    (bs, ⟨n, c, some s⟩ :: ls)
  | fuel + 1, Entry.dir n sub :: rest =>
    let (bs1, ls1) := resolveLinks fuel sub
    let node := writePBNode ls1 [8, 1]
    let c := packCID (sha256 node) 1 Codec.dagPb
    let (bs2, ls2) := resolveLinks fuel rest
    (bs1 ++ [⟨node, c⟩] ++ bs2, ⟨n, c, none⟩ :: ls2)

/-- The root call of `addBlocksForDir`: resolve all children, encode the
root node (directory marker data `[8, 1]`), queue it last, return its CID. -/
def resolveRoot (fuel : Nat) (links : List Entry) : List Block × CID :=
  let (bs, ls) := resolveLinks fuel links
  let node := writePBNode ls [8, 1]
  let c := packCID (sha256 node) 1 Codec.dagPb
  (bs ++ [⟨node, c⟩], c)

/-- An upper bound on the number of entries the inserted tree can hold,
used as resolution fuel: one per path segment per file, plus one. -/
def treeFuel (files : List InputFile) : Nat :=
  1 + (files.map (fun f => (jsSplitSlash f.name).length)).sum

/-- The block queue and root CID computed by `uploadFiles` before the
driver runs: file blocks in input order, then directory blocks bottom-up,
the root node last. -/
def uploadFilesPlan (files : List InputFile) : Option (List Block × CID) :=
  (buildRootLinks files).map (fun links =>
    let (dirBlocks, rootCid) := resolveRoot (treeFuel files) links
    (fileBlocks files ++ dirBlocks, rootCid))

/-- The root CID string `uploadFiles` returns, as a pure function of the
input files. -/
def uploadFilesRootCid (files : List InputFile) : Option String :=
  (uploadFilesPlan files).map (fun p => cidToString p.2)

/-! ### Existence prober (`isAlreadyUploaded`, `src/index.js` lines 20-45)

One loop iteration issues one HEAD request; the environment answers each
attempt with an HTTP status or a timeout (`AbortError`).  Status 200
returns `true`; any status other than 200 and 404 throws; a timeout logs
and continues; a 404 falls off the end of the `try` block, so control
reaches the next loop iteration.  The model returns the outcome
(`Except` of the unexpected status) paired with the number of request
attempts actually issued. -/

/-- Outcome of one existence-probe request attempt. -/
inductive Attempt where
  | timeout
  | status (code : Nat)
deriving DecidableEq

/-- The `for (let i = 0; i < retryCount; i++)` probe loop, with `env i`
the outcome of the attempt at index `i`.  Returns the result and the
number of attempts issued. -/
def probeLoop (env : Nat → Attempt) : Nat → Nat → Except Nat Bool × Nat
  | 0, _ => (Except.ok false, 0)
  | fuel + 1, i =>
    match env i with
    | .timeout =>
      let p := probeLoop env fuel (i + 1)
      (p.1, p.2 + 1)
    | .status c =>
      if c = 200 then (Except.ok true, 1)
      else if c = 404 then
        let p := probeLoop env fuel (i + 1)
        (p.1, p.2 + 1)
      else (Except.error c, 1)

/-- The source's `isAlreadyUploaded(cid, options)` for a given attempt
environment and `retryCount`. -/
def isAlreadyUploadedRun (env : Nat → Attempt) (retryCount : Nat) :
    Except Nat Bool × Nat :=
  probeLoop env retryCount 0

/-! ### Batch packer (`splitOnBatches`, `src/index.js` lines 47-61) -/

/-- Total payload bytes of a batch: the source's
`currentBatch.reduce((a, b) => a + b.length, 0)`. -/
def sumLens (batch : List Bytes) : Nat := (batch.map List.length).sum

/-- The batch-packing loop: `acc` holds the batches already rolled over,
`cur` the current batch.  A new batch starts when the current batch
already holds `MAX_BATCH_ACTIONS = 7` items or its accumulated bytes
already reach `MAX_BATCH_BYTES = 262144`. -/
def splitGo : List Bytes → List (List Bytes) → List Bytes → List (List Bytes)
  | [], acc, cur => acc ++ [cur]
  | d :: rest, acc, cur =>
    if 7 ≤ cur.length ∨ 262144 ≤ sumLens cur
    then splitGo rest (acc ++ [cur]) [d]
    else splitGo rest acc (cur ++ [d])

/-- The source's `splitOnBatches(newBlocks)`: batches of the payloads
(`data`) of the given blocks. -/
def splitOnBatches (newBlocks : List Block) : List (List Bytes) :=
  splitGo (newBlocks.map Block.data) [] []

/-! ### Error classification (`isExpectedNearError`, lines 180-202, and
the `executeUpload` transaction wrapper, lines 221-236)

A NEAR submission error is modelled by the fields the classifier
inspects: `error.type`, the optional-chained
`error.kind?.kind?.FunctionCallError?.MethodResolveError` string, the
truthiness of
`error.kind?.kind?.FunctionCallError?.CompilationError?.CodeDoesNotExist`,
and `error.message`. -/

/-- A NEAR submission error, flattened to the fields the source inspects. -/
structure NearError where
  type : Option String
  methodResolveError : Option String
  codeDoesNotExist : Bool
  message : Option String
deriving DecidableEq

/-- Whether the first list is a prefix of the second. -/
def startsWithList : List Char → List Char → Bool
  | [], _ => true
  | _ :: _, [] => false
  | p :: ps, c :: cs => p = c && startsWithList ps cs

/-- Whether `pat` occurs contiguously inside `l`. -/
def containsList (pat : List Char) : List Char → Bool
  | [] => pat.isEmpty
  | c :: cs => startsWithList pat (c :: cs) || containsList pat cs

/-- JavaScript `String.prototype.includes`. -/
def strIncludes (s pat : String) : Bool := containsList pat.data s.data

/-- The source's `isExpectedNearError(error)`. -/
def isExpectedNearError (e : NearError) : Bool :=
  if e.type = some "ActionError" ∧ e.methodResolveError = some "MethodNotFound" then
    true
  else if e.type = some "ActionError" ∧ e.codeDoesNotExist then
    true
  else
    match e.message with
    | some m =>
      strIncludes m "Cannot find contract code for account" ||
        strIncludes m "Contract method is not found"
    | none => false

/-- The `signAndSendTransaction` wrapper built inside `executeUpload`:
an expected NEAR error is swallowed (the wrapper returns), any other
error is rethrown. -/
def wrapSend (raw : List Bytes → Except NearError Unit) (batch : List Bytes) :
    Except NearError Unit :=
  match raw batch with
  | Except.ok u => Except.ok u
  | Except.error e => if isExpectedNearError e then Except.ok () else Except.error e

/-! ### Upload driver (`uploadBlocks`, `src/index.js` lines 64-82)

`uploadBlocks` probes every block (passing the caller's raw `options`
object to `isAlreadyUploaded`, so only `retryCount` as the caller wrote
it applies), filters the already-uploaded ones, packs batches, then
submits them sequentially, reporting progress after each batch.  The
model returns the sender invocations made, the progress reports, and the
first error, if any. -/

/-- The caller-supplied options object.  `none` is an absent field
(JavaScript `undefined`). -/
structure Options where
  retryCount : Option Nat
deriving DecidableEq

/-- The attempt bound `isAlreadyUploaded` derives from the forwarded raw
options: `for (let i = 0; i < retryCount; i++)` runs zero times when
`retryCount` is absent (`0 < undefined` is false) or zero. -/
def effRetry : Option Nat → Nat
  | none => 0
  | some n => n

/-- The probe phase: filter out blocks whose probe returned `true`,
failing with the first probe error. -/
def probeAll (env : CID → Nat → Attempt) (rc : Nat) :
    List Block → Except Nat (List Block)
  | [] => Except.ok []
  | b :: rest =>
    match isAlreadyUploadedRun (env b.cid) rc with
    | (Except.error c, _) => Except.error c
    | (Except.ok uploaded, _) =>
      match probeAll env rc rest with
      | Except.error c => Except.error c
      | Except.ok l => Except.ok (if uploaded then l else b :: l)

/-- The sequential submission loop: each batch is passed to the sender;
a sender error aborts the loop, otherwise progress
`(currentBlocks, totalBlocks)` is reported.  Returns the sender
invocations, the progress reports, and the first sender error. -/
def submitLoop (send : List Bytes → Except NearError Unit) :
    List (List Bytes) → Nat → Nat →
    List (List Bytes) × List (Nat × Nat) × Option NearError
  | [], _, _ => ([], [], none)
  | b :: rest, cur, total =>
    match send b with
    | Except.error e => ([b], [], some e)
    | Except.ok _ =>
      let cur2 := cur + b.length
      let (calls, reps, err) := submitLoop send rest cur2 total
      (b :: calls, (cur2, total) :: reps, err)

/-- An upload failure: a probe protocol error (unexpected status) or a
propagated submission error. -/
inductive UploadError where
  | probe (status : Nat)
  | submit (e : NearError)
deriving DecidableEq

/-- Observable result of one `uploadBlocks` run. -/
structure DriverResult where
  senderCalls : List (List Bytes)
  reports : List (Nat × Nat)
  err : Option UploadError
deriving DecidableEq

/-- The source's `uploadBlocks(blocks, options)` under a probe
environment and sender. -/
def uploadBlocksRun (env : CID → Nat → Attempt) (opts : Options)
    (send : List Bytes → Except NearError Unit) (blocks : List Block) :
    DriverResult :=
  match probeAll env (effRetry opts.retryCount) blocks with
  | Except.error c => ⟨[], [], some (.probe c)⟩
  | Except.ok filtered =>
    let batches := splitOnBatches filtered
    let total := (batches.map List.length).sum
    let (calls, reps, err) := submitLoop send batches 0 total
    ⟨calls, reps, err.map .submit⟩

/-- The source's `uploadFiles(files, options)`: build the tree and block
queue, run the driver, and return the root CID string when the driver
finished without error (`none` inner component when the driver rejected,
outer `none` when tree building crashes). -/
def uploadFilesRun (files : List InputFile) (env : CID → Nat → Attempt)
    (opts : Options) (send : List Bytes → Except NearError Unit) :
    Option (DriverResult × Option String) :=
  match uploadFilesPlan files with
  | none => none
  | some (blocks, rootCid) =>
    let dr := uploadBlocksRun env opts send blocks
    some (dr, if dr.err = none then some (cidToString rootCid) else none)

/-! ### Predicates used by the verified properties -/

/-- A batch closed by the rollover test satisfies the test's condition. -/
def ClosedBatch (b : List Bytes) : Prop := 7 ≤ b.length ∨ 262144 ≤ sumLens b

/-- Every intermediate accumulation state of a batch stayed under both
limits: proper nonempty prefixes have fewer than 7 items (trivially) and
fewer than `MAX_BATCH_BYTES` accumulated bytes. -/
def UnderLimits (b : List Bytes) : Prop :=
  ∀ k, 0 < k → k < b.length → sumLens (b.take k) < 262144 ∧ k < 7

/-- An attempt outcome that does not end the probe loop: a timeout or a
definitive 404. -/
def BenignAttempt (a : Attempt) : Prop := a = .timeout ∨ a = .status 404

instance (a : Attempt) : Decidable (BenignAttempt a) := by
  unfold BenignAttempt; infer_instance

/-- Names of the directory entries in a links list. -/
def dirNames (links : List Entry) : List String :=
  (links.filter Entry.isDir).map Entry.name

/-- At every level of an entry, sibling directory names are distinct. -/
inductive DirNodup : Entry → Prop where
  | file (n : String) (c : CID) (s : Nat) : DirNodup (Entry.file n c s)
  | dir (n : String) (ls : List Entry) :
      (dirNames ls).Nodup → (∀ e ∈ ls, DirNodup e) → DirNodup (Entry.dir n ls)

/-- The sibling-merge invariant of a links list: directory names are
distinct at this level and recursively below. -/
def GoodLinks (links : List Entry) : Prop :=
  (dirNames links).Nodup ∧ ∀ e ∈ links, DirNodup e

/-! ### Concrete fixtures for the scenario claims -/

/-- The spec scenario input: `a.txt` holding "hi" and `dir/b.txt`
holding "bye". -/
def scenarioFiles : List InputFile :=
  [⟨"a.txt", [104, 105]⟩, ⟨"dir/b.txt", [98, 121, 101]⟩]

/-- The scenario input with the two files swapped. -/
def scenarioFilesPermuted : List InputFile :=
  [⟨"dir/b.txt", [98, 121, 101]⟩, ⟨"a.txt", [104, 105]⟩]

/-- A gateway on which every probe attempt answers HTTP 200. -/
def envAll200 : CID → Nat → Attempt := fun _ _ => .status 200

/-- A gateway on which every probe attempt answers HTTP 404. -/
def envAll404 : CID → Nat → Attempt := fun _ _ => .status 404

/-- An attempt environment answering 404 first, then 200. -/
def env404then200 : Nat → Attempt := fun i => if i = 0 then .status 404 else .status 200

/-- A sender that always succeeds. -/
def sendOk : List Bytes → Except NearError Unit := fun _ => Except.ok ()

/-- Options with the default `retryCount: 3`. -/
def opts3 : Options := ⟨some 3⟩

/-- A one-byte block. -/
def smallBlock : Block := ⟨[0], packCID (sha256 [0]) 1 Codec.raw⟩

/-- A payload strictly larger than `MAX_BATCH_BYTES`. -/
def oversizedData : Bytes := List.replicate 262145 0

/-- A block whose payload exceeds `MAX_BATCH_BYTES`. -/
def oversizedBlock : Block := ⟨oversizedData, packCID (sha256 [1]) 1 Codec.raw⟩

/-- Two files sharing the directory segment `dir` under the root. -/
def mergeFiles : List InputFile := [⟨"dir/a.txt", [104]⟩, ⟨"dir/b.txt", [105]⟩]

/-- A NEAR error matching none of the expected shapes. -/
def fatalError : NearError := ⟨some "ActionError", none, false, some "Some other error"⟩

/-- The MethodNotFound error NEAR reports on a successful first store. -/
def benignError : NearError := ⟨some "ActionError", some "MethodNotFound", false, none⟩

/-- A raw sender that always fails with the fatal error. -/
def rawSendFatal : List Bytes → Except NearError Unit := fun _ => Except.error fatalError

/-- A raw sender that always fails with the benign error. -/
def rawSendBenign : List Bytes → Except NearError Unit := fun _ => Except.error benignError

/-! ## Helper lemmas: the batch-packing loop -/

lemma sumLens_append (a b : List Bytes) : sumLens (a ++ b) = sumLens a + sumLens b := by
  simp [sumLens]

lemma splitGo_flatten (ds : List Bytes) :
    ∀ acc cur, (splitGo ds acc cur).flatten = acc.flatten ++ cur ++ ds := by
  induction ds with
  | nil => intro acc cur; simp [splitGo]
  | cons d rest ih =>
    intro acc cur
    by_cases h : 7 ≤ cur.length ∨ 262144 ≤ sumLens cur
    · simp [splitGo, h, ih]
    · simp [splitGo, h, ih]

lemma splitGo_le7 (ds : List Bytes) :
    ∀ acc cur, (∀ b ∈ acc, b.length ≤ 7) → cur.length ≤ 7 →
      ∀ b ∈ splitGo ds acc cur, b.length ≤ 7 := by
  induction ds with
  | nil =>
    intro acc cur hacc hcur b hb
    simp only [splitGo, List.mem_append, List.mem_singleton] at hb
    rcases hb with hb | hb
    · exact hacc b hb
    · simpa [hb]
  | cons d rest ih =>
    intro acc cur hacc hcur b hb
    by_cases h : 7 ≤ cur.length ∨ 262144 ≤ sumLens cur
    · simp only [splitGo, if_pos h] at hb
      refine ih _ _ ?_ (by simp) b hb
      intro x hx
      rcases List.mem_append.mp hx with hx | hx
      · exact hacc x hx
      · simp only [List.mem_singleton] at hx; simpa [hx]
    · simp only [splitGo, if_neg h] at hb
      push_neg at h
      exact ih _ _ hacc (by simp only [List.length_append, List.length_singleton]; omega) b hb

lemma splitGo_closed (ds : List Bytes) :
    ∀ acc cur, (∀ b ∈ acc, ClosedBatch b) →
      ∀ b ∈ (splitGo ds acc cur).dropLast, ClosedBatch b := by
  induction ds with
  | nil =>
    intro acc cur hacc b hb
    simp only [splitGo] at hb
    rw [List.dropLast_concat] at hb
    exact hacc b hb
  | cons d rest ih =>
    intro acc cur hacc b hb
    by_cases h : 7 ≤ cur.length ∨ 262144 ≤ sumLens cur
    · simp only [splitGo, if_pos h] at hb
      refine ih _ _ ?_ b hb
      intro x hx
      rcases List.mem_append.mp hx with hx | hx
      · exact hacc x hx
      · simp only [List.mem_singleton] at hx; exact hx ▸ h
    · simp only [splitGo, if_neg h] at hb
      exact ih _ _ hacc b hb

lemma underLimits_extend {cur : List Bytes} {d : Bytes}
    (hcur : UnderLimits cur) (h : ¬(7 ≤ cur.length ∨ 262144 ≤ sumLens cur)) :
    UnderLimits (cur ++ [d]) := by
  push_neg at h
  intro k hk0 hk
  simp only [List.length_append, List.length_singleton] at hk
  have hkc : k ≤ cur.length := by omega
  rw [List.take_append_of_le_length hkc]
  rcases Nat.lt_or_ge k cur.length with hlt | hge
  · exact hcur k hk0 hlt
  · have : k = cur.length := le_antisymm hkc hge
    subst this
    simp only [List.take_length]
    exact ⟨h.2, h.1⟩

lemma splitGo_under (ds : List Bytes) :
    ∀ acc cur, (∀ b ∈ acc, UnderLimits b) → UnderLimits cur →
      ∀ b ∈ splitGo ds acc cur, UnderLimits b := by
  induction ds with
  | nil =>
    intro acc cur hacc hcur b hb
    simp only [splitGo, List.mem_append, List.mem_singleton] at hb
    rcases hb with hb | hb
    · exact hacc b hb
    · exact hb ▸ hcur
  | cons d rest ih =>
    intro acc cur hacc hcur b hb
    by_cases h : 7 ≤ cur.length ∨ 262144 ≤ sumLens cur
    · simp only [splitGo, if_pos h] at hb
      refine ih _ _ ?_ ?_ b hb
      · intro x hx
        rcases List.mem_append.mp hx with hx | hx
        · exact hacc x hx
        · simp only [List.mem_singleton] at hx
          exact hx ▸ hcur
      · intro k hk0 hk
        simp only [List.length_singleton] at hk
        omega
    · simp only [splitGo, if_neg h] at hb
      exact ih _ _ hacc (underLimits_extend hcur h) b hb

lemma splitGo_ne_nil (ds : List Bytes) :
    ∀ acc cur, (∀ b ∈ acc, b ≠ []) → cur ≠ [] →
      ∀ b ∈ splitGo ds acc cur, b ≠ [] := by
  induction ds with
  | nil =>
    intro acc cur hacc hcur b hb
    simp only [splitGo, List.mem_append, List.mem_singleton] at hb
    rcases hb with hb | hb
    · exact hacc b hb
    · exact hb ▸ hcur
  | cons d rest ih =>
    intro acc cur hacc hcur b hb
    by_cases h : 7 ≤ cur.length ∨ 262144 ≤ sumLens cur
    · simp only [splitGo, if_pos h] at hb
      refine ih _ _ ?_ (by simp) b hb
      intro x hx
      rcases List.mem_append.mp hx with hx | hx
      · exact hacc x hx
      · simp only [List.mem_singleton] at hx
        exact hx ▸ hcur
    · simp only [splitGo, if_neg h] at hb
      exact ih _ _ hacc (by simp) b hb

lemma underLimits_oversized_last {b : List Bytes} (hu : UnderLimits b)
    (i : Nat) (hi : i < b.length) (hov : 262144 ≤ (b.getD i []).length) :
    i + 1 = b.length := by
  by_contra hne
  have hlt : i + 1 < b.length := by omega
  have h := (hu (i + 1) (by omega) hlt).1
  have hmem : b.getD i [] ∈ b.take (i + 1) := by
    have : b.getD i [] = b.get ⟨i, hi⟩ := by
      simp [List.getD_eq_getElem?_getD, List.getElem?_eq_getElem hi]
    rw [this]
    have hti : i < (b.take (i + 1)).length := by
      simp [List.length_take]
      omega
    have : (b.take (i + 1)).get ⟨i, hti⟩ = b.get ⟨i, hi⟩ := by
      simp [List.get_eq_getElem, List.getElem_take]
    rw [← this]
    exact List.get_mem _ _ _
  have hle : (b.getD i []).length ≤ sumLens (b.take (i + 1)) := by
    have : (b.getD i []).length ∈ (b.take (i + 1)).map List.length :=
      List.mem_map_of_mem List.length hmem
    exact List.single_le_sum (by intro x _; exact Nat.zero_le x) _ this
  omega

/-! ## Helper lemmas: the probe loop -/

lemma probeLoop_benign_step (env : Nat → Attempt) (fuel i : Nat)
    (h : BenignAttempt (env i)) :
    probeLoop env (fuel + 1) i =
      ((probeLoop env fuel (i + 1)).1, (probeLoop env fuel (i + 1)).2 + 1) := by
  rcases h with h | h <;> simp [probeLoop, h]

lemma probeLoop_exhaust (env : Nat → Attempt) :
    ∀ fuel i, (∀ j, j < fuel → BenignAttempt (env (i + j))) →
      probeLoop env fuel i = (Except.ok false, fuel) := by
  intro fuel
  induction fuel with
  | zero => intro i _; rfl
  | succ f ih =>
    intro i h
    have h0 : BenignAttempt (env i) := by simpa using h 0 (by omega)
    rw [probeLoop_benign_step env f i h0]
    rw [ih (i + 1) (fun j hj => by
      have := h (j + 1) (by omega)
      simpa [Nat.add_assoc, Nat.add_comm 1 j] using this)]

lemma probeLoop_decisive (env : Nat → Attempt) :
    ∀ k fuel i, k < fuel → (∀ j, j < k → BenignAttempt (env (i + j))) →
      (env (i + k) = .status 200 → probeLoop env fuel i = (Except.ok true, k + 1)) ∧
      (∀ c, env (i + k) = .status c → c ≠ 200 → c ≠ 404 →
        probeLoop env fuel i = (Except.error c, k + 1)) := by
  intro k
  induction k with
  | zero =>
    intro fuel i hk _
    obtain ⟨f, rfl⟩ : ∃ f, fuel = f + 1 := ⟨fuel - 1, by omega⟩
    constructor
    · intro h200
      simp only [Nat.add_zero] at h200
      simp [probeLoop, h200]
    · intro c hc h200 h404
      simp only [Nat.add_zero] at hc
      simp [probeLoop, hc, h200, h404]
  | succ k ih =>
    intro fuel i hk hben
    obtain ⟨f, rfl⟩ : ∃ f, fuel = f + 1 := ⟨fuel - 1, by omega⟩
    have h0 : BenignAttempt (env i) := by simpa using hben 0 (by omega)
    have hben2 : ∀ j, j < k → BenignAttempt (env (i + 1 + j)) := fun j hj => by
      have := hben (j + 1) (by omega)
      simpa [Nat.add_assoc, Nat.add_comm 1 j] using this
    have hrec := ih f (i + 1) (by omega) hben2
    have hs : i + 1 + k = i + (k + 1) := by omega
    constructor
    · intro h200
      rw [probeLoop_benign_step env f i h0, (hrec.1 (by rw [hs]; exact h200))]
    · intro c hc h200 h404
      rw [probeLoop_benign_step env f i h0, (hrec.2 c (by rw [hs]; exact hc) h200 h404)]

/-! ## Helper lemmas: probe phase and submission loop of the driver -/

lemma probeAll_retry0 (env : CID → Nat → Attempt) :
    ∀ blocks, probeAll env 0 blocks = Except.ok blocks := by
  intro blocks
  induction blocks with
  | nil => rfl
  | cons b rest ih => simp [probeAll, isAlreadyUploadedRun, probeLoop, ih]

lemma submitLoop_all_ok (send : List Bytes → Except NearError Unit)
    (h : ∀ b, send b = Except.ok ()) :
    ∀ bs cur total, (submitLoop send bs cur total).1 = bs := by
  intro bs
  induction bs with
  | nil => intro cur total; rfl
  | cons b rest ih =>
    intro cur total
    simp [submitLoop, h b, ih]

/-! ## Helper lemmas: substring search -/

lemma startsWithList_self_append (pat rest : List Char) :
    startsWithList pat (pat ++ rest) = true := by
  induction pat with
  | nil => rfl
  | cons p ps ih => simp [startsWithList, ih]

lemma containsList_self_append (pat rest : List Char) :
    containsList pat (pat ++ rest) = true := by
  cases pat with
  | nil =>
    cases rest with
    | nil => rfl
    | cons c cs => simp [containsList, startsWithList]
  | cons p ps =>
    simp only [containsList, Bool.or_eq_true]
    exact Or.inl (by simpa using startsWithList_self_append (p :: ps) rest)

lemma containsList_append_left (pat : List Char) :
    ∀ pre l, containsList pat l = true → containsList pat (pre ++ l) = true := by
  intro pre
  induction pre with
  | nil => intro l h; simpa using h
  | cons c cs ih =>
    intro l h
    simp only [List.cons_append, containsList, Bool.or_eq_true]
    exact Or.inr (ih l h)

lemma strIncludes_of_surrounded (pre pat post : String) :
    strIncludes (pre ++ pat ++ post) pat = true := by
  simp only [strIncludes, String.data_append]
  have h2 := containsList_append_left pat.data pre.data _
    (containsList_self_append pat.data post.data)
  simpa [List.append_assoc] using h2

/-! ## Helper lemmas: sibling-directory uniqueness in the built tree -/

lemma goodLinks_nil : GoodLinks [] := ⟨List.nodup_nil, by simp⟩

lemma dirNames_append_file (links : List Entry) (n : String) (c : CID) (s : Nat) :
    dirNames (links ++ [Entry.file n c s]) = dirNames links := by
  simp [dirNames, List.filter_append, Entry.isDir]

lemma dirNames_append_dir (links : List Entry) (n : String) (sub : List Entry) :
    dirNames (links ++ [Entry.dir n sub]) = dirNames links ++ [n] := by
  simp [dirNames, List.filter_append, Entry.isDir, Entry.name]

lemma goodLinks_append_file {links : List Entry} (h : GoodLinks links)
    (n : String) (c : CID) (s : Nat) : GoodLinks (links ++ [Entry.file n c s]) := by
  refine ⟨by rw [dirNames_append_file]; exact h.1, ?_⟩
  intro e he
  rcases List.mem_append.mp he with he | he
  · exact h.2 e he
  · simp only [List.mem_singleton] at he
    exact he ▸ DirNodup.file n c s

lemma mem_dirNames_of_dir {links : List Entry} {n : String} {sub : List Entry}
    (h : Entry.dir n sub ∈ links) : n ∈ dirNames links := by
  simp only [dirNames, List.mem_map]
  exact ⟨Entry.dir n sub, List.mem_filter.mpr ⟨h, rfl⟩, rfl⟩

lemma goodLinks_append_dir {links : List Entry} (h : GoodLinks links)
    {n : String} {sub : List Entry}
    (hn : ∀ e ∈ links, e.name ≠ n) (hsub : GoodLinks sub) :
    GoodLinks (links ++ [Entry.dir n sub]) := by
  refine ⟨?_, ?_⟩
  · rw [dirNames_append_dir]
    refine List.Nodup.append h.1 (List.nodup_singleton n) ?_
    intro x hx hx2
    simp only [List.mem_singleton] at hx2
    subst hx2
    simp only [dirNames, List.mem_map] at hx
    obtain ⟨e, he, hne⟩ := hx
    exact hn e (List.mem_filter.mp he).1 hne
  · intro e he
    rcases List.mem_append.mp he with he | he
    · exact h.2 e he
    · simp only [List.mem_singleton] at he
      exact he ▸ DirNodup.dir n sub hsub.1 hsub.2

lemma dirNames_set_dir (links : List Entry) :
    ∀ (i : Nat) (n : String) (sub sub2 : List Entry)
      (hi : i < links.length) (hget : links.getD i (Entry.dir "" []) = Entry.dir n sub),
      dirNames (links.set i (Entry.dir n sub2)) = dirNames links := by
  induction links with
  | nil => intro i _ _ _ hi _; simp at hi
  | cons e rest ih =>
    intro i n sub sub2 hi hget
    cases i with
    | zero =>
      simp only [List.getD_cons_zero] at hget
      subst hget
      simp [dirNames, Entry.isDir, Entry.name]
    | succ j =>
      simp only [List.getD_cons_succ] at hget
      simp only [List.length_cons, Nat.succ_lt_succ_iff] at hi
      simp only [List.set_cons_succ]
      cases e with
      | file n2 c2 s2 =>
        have hrec := ih j n sub sub2 hi hget
        simp only [dirNames] at hrec ⊢
        simp [List.filter_cons, Entry.isDir, hrec]
      | dir n2 ls2 =>
        have hrec := ih j n sub sub2 hi hget
        simp only [dirNames] at hrec ⊢
        simp [List.filter_cons, Entry.isDir, Entry.name, hrec]

lemma mem_of_mem_set {links : List Entry} {i : Nat} {a e : Entry}
    (h : e ∈ links.set i a) : e ∈ links ∨ e = a := by
  rcases List.mem_or_eq_of_mem_set h with h | h
  · exact Or.inl h
  · exact Or.inr h

lemma goodLinks_of_dirNodup {n : String} {ls : List Entry}
    (h : DirNodup (Entry.dir n ls)) : GoodLinks ls := by
  cases h with
  | dir _ _ h1 h2 => exact ⟨h1, h2⟩

lemma insertPath_good : ∀ (segs : List String) (fname : String) (c : CID) (size : Nat)
    (links links2 : List Entry), GoodLinks links →
    insertPath segs fname c size links = some links2 → GoodLinks links2 := by
  intro segs
  induction segs with
  | nil =>
    intro fname c size links links2 hg h
    simp only [insertPath, Option.some.injEq] at h
    exact h ▸ goodLinks_append_file hg fname c size
  | cons d rest ih =>
    intro fname c size links links2 hg h
    cases hf : findEntryIdx links d with
    | none =>
      simp only [insertPath, hf] at h
      cases hsub : insertPath rest fname c size [] with
      | none => rw [hsub] at h; exact absurd h (by simp)
      | some sub =>
        rw [hsub] at h
        simp only [Option.some.injEq] at h
        have hn : ∀ e ∈ links, e.name ≠ d := by
          intro e he
          have := List.findIdx?_eq_none_iff.mp hf e he
          simpa using this
        exact h ▸ goodLinks_append_dir hg hn (ih fname c size [] sub goodLinks_nil hsub)
    | some i =>
      simp only [insertPath, hf] at h
      have hi : i < links.length := by
        have := List.findIdx?_eq_some_iff_findIdx_eq.mp hf
        exact this.1
      cases hget : links.getD i (Entry.dir d []) with
      | file n2 c2 s2 => rw [hget] at h; simp at h
      | dir n sub =>
        simp only [hget] at h
        cases hsub : insertPath rest fname c size sub with
        | none => rw [hsub] at h; exact absurd h (by simp)
        | some sub2 =>
          rw [hsub] at h
          simp only [Option.some.injEq] at h
          have hmem : Entry.dir n sub ∈ links := by
            rw [← hget]
            have : links.getD i (Entry.dir d []) = links.get ⟨i, hi⟩ := by
              simp [List.getD_eq_getElem?_getD, List.getElem?_eq_getElem hi]
            rw [this]
            exact List.get_mem _ _ _
          have hsubgood : GoodLinks sub := goodLinks_of_dirNodup (hg.2 _ hmem)
          have hsub2good : GoodLinks sub2 := ih fname c size sub sub2 hsubgood hsub
          have hget2 : links.getD i (Entry.dir "" []) = Entry.dir n sub := by
            have h1 : links.getD i (Entry.dir "" []) = links.get ⟨i, hi⟩ := by
              simp [List.getD_eq_getElem?_getD, List.getElem?_eq_getElem hi]
            have h2 : links.getD i (Entry.dir d []) = links.get ⟨i, hi⟩ := by
              simp [List.getD_eq_getElem?_getD, List.getElem?_eq_getElem hi]
            rw [h1, ← h2, hget]
          subst h
          refine ⟨?_, ?_⟩
          · rw [dirNames_set_dir links i n sub sub2 hi hget2]
            exact hg.1
          · intro e he
            rcases mem_of_mem_set he with he | he
            · exact hg.2 e he
            · exact he ▸ DirNodup.dir n sub2 hsub2good.1 hsub2good.2

lemma buildRootLinks_good_aux :
    ∀ (files : List InputFile) (init links : List Entry), GoodLinks init →
      List.foldlM addFile init files = some links → GoodLinks links := by
  intro files
  induction files with
  | nil =>
    intro init links hg h
    simp only [List.foldlM_nil, Option.pure_def, Option.some.injEq] at h
    exact h ▸ hg
  | cons f fs ih =>
    intro init links hg h
    simp only [List.foldlM_cons] at h
    cases hstep : addFile init f with
    | none => rw [hstep] at h; exact absurd h (by simp)
    | some l1 =>
      rw [hstep] at h
      simp only [Option.bind_eq_bind, Option.some_bind] at h
      have hl1 : GoodLinks l1 := by
        simp only [addFile] at hstep
        exact insertPath_good _ _ _ _ init l1 hg hstep
      exact ih l1 links hl1 h

lemma buildRootLinks_good (files : List InputFile) (links : List Entry)
    (h : buildRootLinks files = some links) : GoodLinks links :=
  buildRootLinks_good_aux files [] links goodLinks_nil h

/-! ## Claim theorems -/

/-- C2, counterexample.  The claim says a definitive HTTP 404 makes
`isAlreadyUploaded` issue no further request attempts.  On an environment
answering 404 on attempt 0 and 200 afterwards, with `retryCount = 3`, the
source issues a second attempt after the clean 404 (two attempts in
total) and even returns `true` from that later 200. -/
theorem c2_counterexample :
    isAlreadyUploadedRun env404then200 3 = (Except.ok true, 2) ∧
      1 < (isAlreadyUploadedRun env404then200 3).2 :=
  ⟨rfl, by decide⟩

/-- C2, amended.  A 404 does not short-circuit the probe loop: it behaves
exactly like a timeout, consuming one of the `retryCount` iterations and
falling through to the next attempt; only after all iterations end in
404 (or timeout) does the function return `false`. -/
theorem c2_amended_404_consumes_retry (env : Nat → Attempt) (fuel i rc : Nat) :
    (env i = .status 404 →
      probeLoop env (fuel + 1) i =
        ((probeLoop env fuel (i + 1)).1, (probeLoop env fuel (i + 1)).2 + 1)) ∧
    ((∀ j, j < rc → env j = .status 404) →
      isAlreadyUploadedRun env rc = (Except.ok false, rc)) := by
  constructor
  · intro h
    exact probeLoop_benign_step env fuel i (Or.inr h)
  · intro h
    exact probeLoop_exhaust env rc 0 (fun j hj => Or.inr (by simpa using h j hj))

/-- Witness for the amended C2 theorem at the concrete 404-then-200
environment: the 404 at attempt 0 hands control to the next attempt. -/
theorem c2_amended_witness :
    probeLoop env404then200 3 0 =
      ((probeLoop env404then200 2 1).1, (probeLoop env404then200 2 1).2 + 1) :=
  (c2_amended_404_consumes_retry env404then200 2 0 0).1 (by decide)

/-- C4, counterexample.  The claim says an item larger than 262144 bytes
always starts its own batch.  Preceded by a one-byte block in an
under-limit current batch, the oversized payload is appended to that same
batch instead. -/
theorem c4_counterexample :
    262144 < oversizedData.length ∧
      splitOnBatches [smallBlock, oversizedBlock] = [[[0], oversizedData]] := by
  constructor
  · unfold oversizedData
    rw [List.length_replicate]
    omega
  · unfold splitOnBatches oversizedBlock smallBlock
    generalize oversizedData = D
    simp [splitGo, sumLens]

/-- C4, amended.  Every batch holds at most 7 items; every batch except
the last was closed exactly at the rollover condition (7 items or 262144
accumulated bytes); within a batch every intermediate accumulation state
was under both limits; and an item of 262144 bytes or more is never
split and always sits in the final position of its batch (so the item
following it starts a new batch), though it may share the batch with
smaller items packed before it. -/
theorem c4_amended_batch_invariants (blocks : List Block) :
    (∀ b ∈ splitOnBatches blocks, b.length ≤ 7) ∧
    (∀ b ∈ (splitOnBatches blocks).dropLast, b.length = 7 ∨ 262144 ≤ sumLens b) ∧
    (∀ b ∈ splitOnBatches blocks, UnderLimits b) ∧
    (∀ b ∈ splitOnBatches blocks, ∀ i, i < b.length →
      262144 ≤ (b.getD i []).length → i + 1 = b.length) := by
  have h7 := splitGo_le7 (blocks.map Block.data) [] [] (by simp) (by simp)
  have hcl := splitGo_closed (blocks.map Block.data) [] [] (by simp)
  have hun := splitGo_under (blocks.map Block.data) [] [] (by simp)
    (by intro k hk0 hk; simp at hk)
  refine ⟨fun b hb => h7 b hb, fun b hb => ?_, fun b hb => hun b hb,
    fun b hb i hi hov => underLimits_oversized_last (hun b hb) i hi hov⟩
  have hb2 : b ∈ splitOnBatches blocks := List.Sublist.mem hb (List.dropLast_sublist _)
  rcases hcl b hb with h | h
  · exact Or.inl (Nat.le_antisymm (h7 b hb2) h)
  · exact Or.inr h

/-- Witness for the amended C4 theorem: the single batch produced from
the one-byte block satisfies the item bound. -/
theorem c4_amended_witness : ([[0]] : List Bytes).length ≤ 7 :=
  (c4_amended_batch_invariants [smallBlock]).1 [[0]] (by decide)

/-- C5.  Under the `executeUpload` transaction wrapper, a submission
error classified expected (NEAR MethodNotFound, CodeDoesNotExist, or the
two message patterns) is swallowed and the driver proceeds to the next
batch, reporting progress for the swallowed batch; any other submission
error is propagated as is, and the remaining batches are not attempted. -/
theorem c5_submission_error_classification :
    (∀ (raw : List Bytes → Except NearError Unit) (b : List Bytes)
       (rest : List (List Bytes)) (cur total : Nat) (e : NearError),
       raw b = Except.error e → isExpectedNearError e = true →
       submitLoop (wrapSend raw) (b :: rest) cur total =
         (b :: (submitLoop (wrapSend raw) rest (cur + b.length) total).1,
          (cur + b.length, total) :: (submitLoop (wrapSend raw) rest (cur + b.length) total).2.1,
          (submitLoop (wrapSend raw) rest (cur + b.length) total).2.2)) ∧
    (∀ (raw : List Bytes → Except NearError Unit) (b : List Bytes)
       (rest : List (List Bytes)) (cur total : Nat) (e : NearError),
       raw b = Except.error e → isExpectedNearError e = false →
       submitLoop (wrapSend raw) (b :: rest) cur total = ([b], [], some e)) ∧
    (∀ (cde : Bool) (m : Option String),
       isExpectedNearError ⟨some "ActionError", some "MethodNotFound", cde, m⟩ = true) ∧
    (∀ (mre : Option String) (m : Option String),
       isExpectedNearError ⟨some "ActionError", mre, true, m⟩ = true) ∧
    (∀ (t : Option String) (mre : Option String) (cde : Bool) (pre post : String),
       isExpectedNearError
         ⟨t, mre, cde, some (pre ++ "Cannot find contract code for account" ++ post)⟩ = true ∧
       isExpectedNearError
         ⟨t, mre, cde, some (pre ++ "Contract method is not found" ++ post)⟩ = true) := by
  refine ⟨?_, ?_, ?_, ?_, ?_⟩
  · intro raw b rest cur total e h1 h2
    simp [submitLoop, wrapSend, h1, h2]
  · intro raw b rest cur total e h1 h2
    simp [submitLoop, wrapSend, h1, h2]
  · intro cde m
    simp [isExpectedNearError]
  · intro mre m
    by_cases h : mre = some "MethodNotFound" <;> simp [isExpectedNearError, h]
  · intro t mre cde pre post
    constructor <;>
      · unfold isExpectedNearError
        split_ifs <;> simp [strIncludes_of_surrounded]

/-- Witness for the C5 theorem: a batch whose raw submission fails with
an unexpected error aborts the loop, leaving the remaining batch
unattempted. -/
theorem c5_witness :
    submitLoop (wrapSend rawSendFatal) [[[1]], [[2]]] 0 2 = ([[[1]]], [], some fatalError) :=
  c5_submission_error_classification.2.1 rawSendFatal [[1]] [[[2]]] 0 2 fatalError rfl (by decide)

/-- C6.  For every probe attempt reached after only benign outcomes
(timeouts or 404s): an HTTP 200 returns `true` immediately after that
attempt; a status other than 200 and 404 raises that status as an error
after that attempt; and when all `retryCount` attempts end benignly the
function returns `false` having used exactly `retryCount` attempts. -/
theorem c6_probe_attempt_semantics (env : Nat → Attempt) (rc : Nat) :
    (∀ k, k < rc → (∀ j, j < k → BenignAttempt (env j)) →
      (env k = .status 200 → isAlreadyUploadedRun env rc = (Except.ok true, k + 1)) ∧
      (∀ c, env k = .status c → c ≠ 200 → c ≠ 404 →
        isAlreadyUploadedRun env rc = (Except.error c, k + 1))) ∧
    ((∀ j, j < rc → BenignAttempt (env j)) →
      isAlreadyUploadedRun env rc = (Except.ok false, rc)) := by
  constructor
  · intro k hk hben
    have := probeLoop_decisive env k rc 0 hk (fun j hj => by simpa using hben j hj)
    simpa [isAlreadyUploadedRun] using this
  · intro h
    exact probeLoop_exhaust env rc 0 (fun j hj => by simpa using h j hj)

/-- Witness for the C6 theorem: an immediate 200 returns `true` after one
attempt. -/
theorem c6_witness :
    isAlreadyUploadedRun (fun _ => Attempt.status 200) 3 = (Except.ok true, 1) :=
  ((c6_probe_attempt_semantics (fun _ => Attempt.status 200) 3).1 0 (by decide)
    (fun j hj => absurd hj (Nat.not_lt_zero j))).1 rfl

/-- C7.  Whenever the tree builder finishes without crashing, sibling
directory names are distinct at the root and recursively at every level:
a repeated directory-name segment under the same parent is merged into
the single existing directory node rather than duplicated. -/
theorem c7_sibling_directory_merge (files : List InputFile) (links : List Entry)
    (h : buildRootLinks files = some links) :
    (dirNames links).Nodup ∧ ∀ e ∈ links, DirNodup e :=
  buildRootLinks_good files links h

/-- Witness for the C7 theorem on two files sharing the `dir` segment. -/
theorem c7_witness :
    (dirNames ((buildRootLinks mergeFiles).getD [])).Nodup ∧
      ∀ e ∈ (buildRootLinks mergeFiles).getD [], DirNodup e :=
  c7_sibling_directory_merge mergeFiles ((buildRootLinks mergeFiles).getD []) (by rfl)

/-- C8.  The packer returns exactly one batch, the empty one, on the
empty block list, and concatenating its output batches reproduces the
input payloads in input order. -/
theorem c8_empty_and_order_preservation :
    splitOnBatches [] = [[]] ∧
      ∀ blocks : List Block, (splitOnBatches blocks).flatten = blocks.map Block.data := by
  refine ⟨rfl, fun blocks => ?_⟩
  simpa [splitOnBatches] using splitGo_flatten (blocks.map Block.data) [] []

/-- C9.  Concatenating the batches yields exactly the input payloads in
order (nothing dropped or duplicated), and on a non-empty input every
batch is non-empty. -/
theorem c9_exact_partition (blocks : List Block) :
    (splitOnBatches blocks).flatten = blocks.map Block.data ∧
      (blocks ≠ [] → ∀ b ∈ splitOnBatches blocks, b ≠ []) := by
  refine ⟨by simpa [splitOnBatches] using splitGo_flatten (blocks.map Block.data) [] [], ?_⟩
  intro hne b hb
  cases blocks with
  | nil => exact absurd rfl hne
  | cons x xs =>
    have h1 : splitOnBatches (x :: xs) = splitGo (xs.map Block.data) [] [x.data] := by
      simp [splitOnBatches, splitGo, sumLens]
    rw [h1] at hb
    exact splitGo_ne_nil _ [] [x.data] (by simp) (by simp) b hb

/-- Witness for the C9 theorem: the single batch from one block is
non-empty. -/
theorem c9_witness : ([[0]] : List Bytes) ≠ [] :=
  (c9_exact_partition [smallBlock]).2 (by simp) [[0]] (by decide)

/-- C10.  When the caller's options omit `retryCount` or set it to 0,
the forwarded raw options give the probe loop zero iterations: every
probe performs zero request attempts and returns `false`, the probe
phase filters out nothing, and (with a succeeding sender) every block is
submitted. -/
theorem c10_raw_options_zero_retries (opts : Options)
    (h : opts.retryCount = none ∨ opts.retryCount = some 0) :
    effRetry opts.retryCount = 0 ∧
    (∀ env : Nat → Attempt, isAlreadyUploadedRun env (effRetry opts.retryCount) = (Except.ok false, 0)) ∧
    (∀ (env : CID → Nat → Attempt) (blocks : List Block),
      probeAll env (effRetry opts.retryCount) blocks = Except.ok blocks) ∧
    (∀ (env : CID → Nat → Attempt) (send : List Bytes → Except NearError Unit)
       (blocks : List Block), (∀ bt, send bt = Except.ok ()) →
      (uploadBlocksRun env opts send blocks).senderCalls = splitOnBatches blocks) := by
  have h0 : effRetry opts.retryCount = 0 := by
    rcases h with h | h <;> simp [effRetry, h]
  refine ⟨h0, ?_, ?_, ?_⟩
  · intro env
    rw [h0]
    rfl
  · intro env blocks
    rw [h0]
    exact probeAll_retry0 env blocks
  · intro env send blocks hsend
    unfold uploadBlocksRun
    rw [h0, probeAll_retry0]
    have hcalls := submitLoop_all_ok send hsend (splitOnBatches blocks) 0
      (((splitOnBatches blocks).map List.length).sum)
    simp only [DriverResult.senderCalls]
    exact hcalls

/-- Witness for the C10 theorem: options that omit `retryCount` yield
zero probe attempts. -/
theorem c10_witness : effRetry (Options.mk none).retryCount = 0 :=
  (c10_raw_options_zero_retries ⟨none⟩ (Or.inl rfl)).1

lemma uploadFilesRun_root_eq (files : List InputFile) (env : CID → Nat → Attempt)
    (opts : Options) (send : List Bytes → Except NearError Unit) (dr : DriverResult)
    (root : Option String) (h : uploadFilesRun files env opts send = some (dr, root)) :
    root = if dr.err = none then uploadFilesRootCid files else none := by
  unfold uploadFilesRun at h
  cases hplan : uploadFilesPlan files with
  | none => rw [hplan] at h; simp at h
  | some p =>
    rw [hplan] at h
    obtain ⟨blocks, rootCid⟩ := p
    simp only [Option.some.injEq, Prod.mk.injEq] at h
    obtain ⟨hdr, hroot⟩ := h
    subst hdr
    rw [← hroot]
    simp [uploadFilesRootCid, hplan]

/-- C1, counterexample.  The claim says that when the gateway reports
every probed CID as existing the transaction sender is never invoked.
On the two-file scenario input with an all-200 gateway, the driver still
invokes the sender exactly once, with the empty batch `splitOnBatches`
produces from the empty filtered list. -/
theorem c1_counterexample :
    (uploadFilesRun scenarioFiles envAll200 opts3 sendOk).map (fun r => r.1.senderCalls)
        = some [[]] ∧
      ([[]] : List (List Bytes)) ≠ [] :=
  ⟨by decide, by decide⟩

/-- C1, amended.  On the two-file scenario input with an all-200 gateway
the driver invokes the sender exactly once, with an empty batch, so no
block payload is ever submitted; and the returned root CID string equals
the one returned by the all-404 run (both equal the pure root CID of the
input file list). -/
theorem c1_amended_scenario :
    (uploadFilesRun scenarioFiles envAll200 opts3 sendOk).map (fun r => r.1.senderCalls)
        = some [[]] ∧
      (uploadFilesRun scenarioFiles envAll200 opts3 sendOk).bind (fun r => r.2)
        = (uploadFilesRun scenarioFiles envAll404 opts3 sendOk).bind (fun r => r.2) ∧
      (uploadFilesRun scenarioFiles envAll404 opts3 sendOk).bind (fun r => r.2)
        = uploadFilesRootCid scenarioFiles ∧
      uploadFilesRootCid scenarioFiles ≠ none :=
  ⟨by decide, by decide, by decide, by decide⟩

/-- C3, counterexample.  The claim says the root CID is independent of
input enumeration order.  Swapping the two scenario files permutes the
root directory's link list, changing the encoded root node and hence the
root CID string. -/
theorem c3_counterexample :
    scenarioFiles.Perm scenarioFilesPermuted ∧
      uploadFilesRootCid scenarioFiles ≠ uploadFilesRootCid scenarioFilesPermuted :=
  ⟨by decide, by decide⟩

/-- C3, amended.  The root CID string returned by `uploadFiles` is a
pure function of the input file list: every run that finishes without a
driver error returns `uploadFilesRootCid files`, whatever the gateway
and sender did, so repeated runs on the same list return the same root
CID.  It is not, however, invariant under permutation of the list. -/
theorem c3_amended_determinism :
    (∀ files env opts send dr root,
      uploadFilesRun files env opts send = some (dr, root) → dr.err = none →
      root = uploadFilesRootCid files) ∧
    (∀ files env1 opts1 send1 env2 opts2 send2 dr1 r1 dr2 r2,
      uploadFilesRun files env1 opts1 send1 = some (dr1, some r1) →
      uploadFilesRun files env2 opts2 send2 = some (dr2, some r2) → r1 = r2) := by
  constructor
  · intro files env opts send dr root h herr
    rw [uploadFilesRun_root_eq files env opts send dr root h, if_pos herr]
  · intro files env1 opts1 send1 env2 opts2 send2 dr1 r1 dr2 r2 h1 h2
    have e1 := uploadFilesRun_root_eq _ _ _ _ _ _ h1
    have e2 := uploadFilesRun_root_eq _ _ _ _ _ _ h2
    by_cases hd1 : dr1.err = none
    · rw [if_pos hd1] at e1
      by_cases hd2 : dr2.err = none
      · rw [if_pos hd2] at e2
        exact Option.some.inj (e1.trans e2.symm)
      · rw [if_neg hd2] at e2
        exact absurd e2 (by simp)
    · rw [if_neg hd1] at e1
      exact absurd e1 (by simp)

/-- Witness for the amended C3 theorem: the all-404 scenario run returns
exactly the pure root CID of the scenario file list. -/
theorem c3_amended_witness :
    ((uploadFilesRun scenarioFiles envAll404 opts3 sendOk).getD ⟨⟨[], [], none⟩, none⟩).2
      = uploadFilesRootCid scenarioFiles :=
  c3_amended_determinism.1 scenarioFiles envAll404 opts3 sendOk
    ((uploadFilesRun scenarioFiles envAll404 opts3 sendOk).getD ⟨⟨[], [], none⟩, none⟩).1
    ((uploadFilesRun scenarioFiles envAll404 opts3 sendOk).getD ⟨⟨[], [], none⟩, none⟩).2
    (by rfl) (by rfl)

end NearfsUpload
